import Mathlib

/-!
Shallow embedding of the cedar_terrace maintenance scripts
(files under src/backend), which rewrite integration-test source files by
line scanning and textual substitution.  Lines and file contents are
modelled as lists of characters; each Python loop becomes a structurally
or well-founded recursive Lean function translated clause by clause from
the source.  Whitespace and word characters use the ASCII fragment of
Python semantics, which is the only fragment the scripts exercise.
-/

namespace CedarTerrace

/-- A line of a source file (a Python string), as a list of characters. -/
abbrev Line := List Char

/-- Left curly brace character, written numerically. -/
def lb : Char := Char.ofNat 123

/-- Right curly brace character, written numerically. -/
def rb : Char := Char.ofNat 125

/-- ASCII model of the whitespace class used by Python str.strip and regex
whitespace. -/
def isWS (c : Char) : Bool :=
  c = ' ' || c = '\t' || c = '\n' || c = '\r' || c = Char.ofNat 11 || c = Char.ofNat 12

/-- Python str.strip with no arguments: remove whitespace from both ends. -/
def stripL (s : List Char) : List Char :=
  ((s.dropWhile isWS).reverse.dropWhile isWS).reverse

/-- Python substring test, the expression pat in s. -/
def containsSub : List Char → List Char → Bool
  | [], _ => true
  | _ :: _, [] => false
  | p :: ps, c :: cs => (p :: ps).isPrefixOf (c :: cs) || containsSub (p :: ps) cs

/-- Core scan of Python str.replace, structurally recursive on a fuel
bound: replace every leftmost, non-overlapping occurrence of the nonempty
pattern given by its head and tail.  Every step consumes at least one
input character, so any fuel of at least the input length computes the
replacement; the zero-fuel clause is never reached from `replaceCore`. -/
def replaceCoreGo (p : Char) (ps rep : List Char) : Nat → List Char → List Char
  | 0, s => s
  | _, [] => []
  | fuel + 1, c :: cs =>
    if (p :: ps).isPrefixOf (c :: cs) then
      rep ++ replaceCoreGo p ps rep fuel (cs.drop ps.length)
    else
      c :: replaceCoreGo p ps rep fuel cs

/-- Core of Python str.replace over the whole input. -/
def replaceCore (p : Char) (ps rep : List Char) (s : List Char) : List Char :=
  replaceCoreGo p ps rep s.length s

theorem replaceCoreGo_fuel_aux (p : Char) (ps rep : List Char) :
    ∀ (bound gas : Nat) (s : List Char), gas ≤ bound → s.length ≤ gas →
      replaceCoreGo p ps rep gas s = replaceCoreGo p ps rep s.length s := by
  intro bound
  induction bound with
  | zero =>
    intro gas s hg hs
    have hg0 : gas = 0 := by omega
    have hs0 : s = [] := by
      cases s with
      | nil => rfl
      | cons a b =>
        rw [hg0] at hs
        simp at hs
    rw [hg0, hs0]
    rfl
  | succ bound ih =>
    intro gas s hg hs
    match gas with
    | 0 =>
      have hs0 : s = [] := by
        cases s with
        | nil => rfl
        | cons a b => simp at hs
      rw [hs0]
      rfl
    | gas + 1 =>
      match s with
      | [] => rfl
      | c :: cs =>
        have hcs : cs.length ≤ gas := by
          simp only [List.length_cons] at hs
          omega
        have hgb : gas ≤ bound := by omega
        have hd : (cs.drop ps.length).length ≤ cs.length := by
          simp only [List.length_drop]
          omega
        show (if (p :: ps).isPrefixOf (c :: cs) then
            rep ++ replaceCoreGo p ps rep gas (cs.drop ps.length)
          else c :: replaceCoreGo p ps rep gas cs) =
          (if (p :: ps).isPrefixOf (c :: cs) then
            rep ++ replaceCoreGo p ps rep cs.length (cs.drop ps.length)
          else c :: replaceCoreGo p ps rep cs.length cs)
        rw [ih gas (cs.drop ps.length) hgb (le_trans hd hcs),
          ih gas cs hgb hcs,
          ih cs.length (cs.drop ps.length) (le_trans hcs hgb) hd]

theorem replaceCoreGo_fuel (p : Char) (ps rep : List Char) (fuel : Nat)
    (s : List Char) (h : s.length ≤ fuel) :
    replaceCoreGo p ps rep fuel s = replaceCore p ps rep s :=
  replaceCoreGo_fuel_aux p ps rep fuel fuel s (le_refl _) h

/-- Python str.replace on a pattern list; the scripts only call it with
nonempty literal patterns. -/
def replaceAll : List Char → List Char → List Char → List Char
  | [], _, s => s
  | p :: ps, rep, s => replaceCore p ps rep s

/-- Brace balance contributed by one line, from add-submitted-by.py line 39:
the count of left braces minus the count of right braces. -/
def braceDelta (s : Line) : Int := (s.count lb : Int) - (s.count rb : Int)

/-- Start marker tested at add-submitted-by.py line 36. -/
def submitBraceMark : Line := ("await observationService.submit(\x7b").data

/-- Span collector of add-submitted-by.py lines 42-45: starting from the
seeded balance, consume lines while the running brace count is positive,
returning the consumed lines and the remaining lines. -/
def collectCall : Int → List Line → List Line × List Line
  | _, [] => ([], [])
  | bc, l :: rest =>
    if bc > 0 then
      let p := collectCall (bc + braceDelta l) rest
      (l :: p.1, p.2)
    else
      ([], l :: rest)

theorem collectCall_snd_length (bc : Int) (ls : List Line) :
    (collectCall bc ls).2.length ≤ ls.length := by
  induction ls generalizing bc with
  | nil => simp [collectCall]
  | cons l rest ih =>
    simp only [collectCall]
    by_cases h : bc > 0
    · simp only [if_pos h]
      exact le_trans (ih _) (Nat.le_succ _)
    · simp only [if_neg h]
      exact le_refl _

/-- The literal closing line tested at add-submitted-by.py line 49. -/
def patSemi : Line := ("\x7d);").data

/-- The literal closing line tested at add-submitted-by.py line 52. -/
def patComma : Line := ("\x7d),").data

/-- Replacement written at add-submitted-by.py line 51. -/
def repSemi : Line := ("\x7d, \x27test-user\x27);").data

/-- Replacement written at add-submitted-by.py line 53. -/
def repComma : Line := ("\x7d, \x27test-user\x27),").data

/-- The last-line rewrite of add-submitted-by.py lines 47-53: if the
stripped last line is exactly the closing bracket text, splice in the
second argument. -/
def fixLine (l : Line) : Line :=
  if stripL l = patSemi then replaceAll patSemi repSemi l
  else if stripL l = patComma then replaceAll patComma repComma l
  else l

/-- Apply the last-line rewrite to the final element of the collected call
lines (add-submitted-by.py lines 47-53 act on the last list element). -/
def fixCallLines : List Line → List Line
  | [] => []
  | [l] => [fixLine l]
  | l :: l₂ :: rest => l :: fixCallLines (l₂ :: rest)

/-- The per-file rewrite loop of add-submitted-by.py lines 29-60, acting on
the list of lines obtained by splitting the file content at newlines. -/
def addSubmittedBy : List Line → List Line
  | [] => []
  | l :: rest =>
    if containsSub submitBraceMark l then
      fixCallLines (l :: (collectCall (braceDelta l) rest).1) ++
        addSubmittedBy (collectCall (braceDelta l) rest).2
    else
      l :: addSubmittedBy rest
termination_by ls => ls.length
decreasing_by
  · exact Nat.lt_succ_of_le (collectCall_snd_length _ _)
  · simp only [List.length_cons]; omega

theorem addSubmittedBy_nil : addSubmittedBy [] = [] := by
  simp [addSubmittedBy]

theorem addSubmittedBy_cons (l : Line) (rest : List Line) :
    addSubmittedBy (l :: rest) =
      if containsSub submitBraceMark l then
        fixCallLines (l :: (collectCall (braceDelta l) rest).1) ++
          addSubmittedBy (collectCall (braceDelta l) rest).2
      else l :: addSubmittedBy rest := by
  rw [addSubmittedBy]

/-! ### fix-tests.py -/

/-- The literal prefix of both regular expressions in fix-tests.py lines
18 and 26. -/
def submitParenMark : Line := ("await observationService.submit(\x7b").data

/-- The added argument text of fix-tests.py lines 19 and 27, without the
final delimiter. -/
def testUserArg : Line := (", \x27test-user\x27)").data

/-- One pass of re.sub from fix-tests.py: scan for the literal call prefix,
then a nonempty run of characters other than a right brace, then a right
brace, a parenthesis and the delimiter t; rewrite each leftmost such match
by splicing in the second argument, and continue after the match. -/
def fixTestsSubGo (t : Char) : Nat → List Char → List Char
  | 0, s => s
  | _, [] => []
  | fuel + 1, c :: cs =>
    if submitParenMark.isPrefixOf (c :: cs) then
      let r := (c :: cs).drop submitParenMark.length
      let seg := r.takeWhile (fun ch => !(ch = rb))
      if seg.length > 0 && (rb :: ')' :: [t]).isPrefixOf (r.drop seg.length) then
        submitParenMark ++ seg ++ (rb :: ')' :: []) ++ testUserArg ++ [t] ++
          fixTestsSubGo t fuel (r.drop (seg.length + 3))
      else
        c :: fixTestsSubGo t fuel cs
    else
      c :: fixTestsSubGo t fuel cs

/-- One pass of re.sub from fix-tests.py over the whole input; the fuel
bound of `fixTestsSubGo` is the input length, which suffices because each
step consumes at least one character. -/
def fixTestsSub (t : Char) (s : List Char) : List Char :=
  fixTestsSubGo t s.length s

/-- The whole-content transformation of fix-tests.py lines 17-30: first the
comma-delimited substitution, then the semicolon-delimited one. -/
def fixTests (s : List Char) : List Char :=
  fixTestsSub ';' (fixTestsSub ',' s)

/-! ### add-derivations-v2.py -/

/-- ASCII model of the regex word character class. -/
def isWordChar (c : Char) : Bool := c.isAlphanum || c = '_'

/-- Recognizer for the regex fragment matching an identifier that contains
an occurrence of the letters i or I followed by d. -/
def hasIdTail : List Char → Bool
  | [] => false
  | c :: cs =>
    ((c = 'i' || c = 'I') && ("d").data.isPrefixOf cs) || hasIdTail cs

/-- Recognizer for the regex fragment of add-derivations-v2.py line 26
requiring the identifier to contain o or O then the letters bs, followed
later by i or I then d. -/
def hasObsId : List Char → Bool
  | [] => false
  | [_] => false
  | [_, _] => false
  | c :: b :: s :: rest =>
    ((c = 'o' || c = 'O') && b = 'b' && s = 's' && hasIdTail rest) ||
      hasObsId (b :: s :: rest)

/-- Split off one of the declaration keywords of the regex alternation
const, let, var; the three begin with distinct characters, so the
alternation is deterministic. -/
def kwSplit (s : List Char) : Option (List Char) :=
  if ("const").data.isPrefixOf s then some (s.drop 5)
  else if ("let").data.isPrefixOf s then some (s.drop 3)
  else if ("var").data.isPrefixOf s then some (s.drop 3)
  else none

/-- The literal tail of the start regex of add-derivations-v2.py line 26. -/
def submitCallMark : Line := ("await observationService.submit(").data

/-- The anchored start regex of add-derivations-v2.py line 26: optional
whitespace, a declaration keyword, at least one whitespace, an identifier
containing obs then id (case-insensitive on their first letters), optional
whitespace, an equals sign, optional whitespace, then the literal call
text.  The regex engine's backtracking search is equivalent to this
deterministic scan because the whitespace, word and literal character
classes involved are pairwise disjoint at every boundary. -/
def matchesV2 (l : Line) : Bool :=
  match kwSplit (l.dropWhile isWS) with
  | none => false
  | some r =>
    match r with
    | [] => false
    | c :: _ =>
      isWS c &&
        (let r₂ := r.dropWhile isWS
         let w := r₂.takeWhile isWordChar
         let r₃ := (r₂.drop w.length).dropWhile isWS
         hasObsId w &&
           match r₃ with
           | '=' :: r₄ => submitCallMark.isPrefixOf (r₄.dropWhile isWS)
           | _ => false)

/-- Variable-name extraction of add-derivations-v2.py lines 28-29: the
regex captures the maximal word run after the keyword, with the fallback
name used when the second match fails. -/
def varNameOf (l : Line) : Line :=
  match kwSplit (l.dropWhile isWS) with
  | none => ("observationId").data
  | some r =>
    match r with
    | [] => ("observationId").data
    | c :: _ =>
      if isWS c then
        let w := (r.dropWhile isWS).takeWhile isWordChar
        if w.length > 0 then w else ("observationId").data
      else ("observationId").data

/-- The statement terminator searched for by add-derivations-v2.py line 33
and add-violation-derivation.py line 37. -/
def closeMark : Line := (");").data

/-- The idempotency-guard marker of add-derivations-v2.py line 40 and
add-violation-derivation.py line 45. -/
def deriveMark : Line := ("deriveFromObservation").data

/-- Terminator-token span collector shared by add-derivations-v2.py lines
32-35 and add-violation-derivation.py lines 35-53: consume lines up to and
including the first line containing the terminator, or all lines when no
line contains it. -/
def collectTerm : List Line → List Line × List Line
  | [] => ([], [])
  | l :: rest =>
    if containsSub closeMark l then ([l], rest)
    else
      let p := collectTerm rest
      (l :: p.1, p.2)

theorem collectTerm_snd_length (ls : List Line) :
    (collectTerm ls).2.length ≤ ls.length := by
  induction ls with
  | nil => simp [collectTerm]
  | cons l rest ih =>
    simp only [collectTerm]
    by_cases h : containsSub closeMark l
    · simp only [if_pos h]
      exact Nat.le_succ _
    · simp only [if_neg h]
      exact le_trans ih (Nat.le_succ _)

/-- The derivation block built by add-derivations-v2.py lines 46-52 for a
given variable name; each element is one appended line, newline included. -/
def blockV2 (v : Line) : List Line :=
  [("\n").data,
   ("      // Derive violations (as done by API)\n").data,
   ("      const obs = await observationService.getById(").data ++ v ++ (");\n").data,
   ("      if (obs && obs.parkingPositionId) \x7b\n").data,
   ("        const position = await parkingPositionService.getById(obs.parkingPositionId);\n").data,
   ("        await violationService.deriveFromObservation(obs, position, \x27test-user\x27);\n").data,
   ("      \x7d\n").data]

/-- The per-file rewrite loop of add-derivations-v2.py lines 17-56: emit
each line; on a start match, emit the span collected up to the terminator,
then, unless the marker occurs in the ten-line lookahead window, the
derivation block; then continue after the span. -/
def addDerivationsV2 : List Line → List Line
  | [] => []
  | l :: rest =>
    if matchesV2 l then
      let sp := if containsSub closeMark l then ([], rest) else collectTerm rest
      l :: sp.1 ++
        (if (sp.2.take 10).any (containsSub deriveMark) then [] else blockV2 (varNameOf l)) ++
        addDerivationsV2 sp.2
    else
      l :: addDerivationsV2 rest
termination_by ls => ls.length
decreasing_by
  · simp only [List.length_cons]
    split
    · simp
    · exact Nat.lt_succ_of_le (collectTerm_snd_length _)
  · simp only [List.length_cons]; omega

theorem addDerivationsV2_nil : addDerivationsV2 [] = [] := by
  simp [addDerivationsV2]

theorem addDerivationsV2_cons (l : Line) (rest : List Line) :
    addDerivationsV2 (l :: rest) =
      if matchesV2 l then
        let sp := if containsSub closeMark l then ([], rest) else collectTerm rest
        l :: sp.1 ++
          (if (sp.2.take 10).any (containsSub deriveMark) then [] else blockV2 (varNameOf l)) ++
          addDerivationsV2 sp.2
      else l :: addDerivationsV2 rest := by
  rw [addDerivationsV2]

/-! ### add-violation-derivation.py -/

/-- Concatenation of lines, Python str.join with the empty separator. -/
def joinL : List Line → List Char
  | [] => []
  | l :: rest => l ++ joinL rest

/-- The assignment marker tested by add-violation-derivation.py line 41. -/
def obsIdMark : Line := ("observationId").data

/-- The single multi-line string appended by add-violation-derivation.py
line 50: the triple-quoted derivation code of lines 7-13 followed by one
newline. -/
def avBlock : Line :=
  ("\n      // Derive violations (as done by API)\n      const obs = await observationService.getById(observationId);\n      if (obs && obs.parkingPositionId) \x7b\n        const position = await parkingPositionService.getById(obs.parkingPositionId);\n        await violationService.deriveFromObservation(obs, position, \x27test-user\x27);\n      \x7d\n").data

/-- The per-file rewrite loop of add-violation-derivation.py lines 22-55:
emit each line; after a line containing the submit call text, emit the
lines up to the first terminator line; if a terminator was found, the
joined span text contains the assignment marker, and the marker of the
generated block does not occur in the four-line lookahead window, append
the derivation block; then continue after the span. -/
def addViolationDerivation : List Line → List Line
  | [] => []
  | l :: rest =>
    if containsSub submitCallMark l then
      let sp := collectTerm rest
      l :: sp.1 ++
        (if rest.any (containsSub closeMark) &&
            containsSub obsIdMark (joinL (l :: sp.1)) &&
            !((sp.2.take 4).any (containsSub deriveMark)) then
          [avBlock]
        else []) ++
        addViolationDerivation sp.2
    else
      l :: addViolationDerivation rest
termination_by ls => ls.length
decreasing_by
  · simp only [List.length_cons]
    exact Nat.lt_succ_of_le (collectTerm_snd_length _)
  · simp only [List.length_cons]; omega

theorem addViolationDerivation_nil : addViolationDerivation [] = [] := by
  simp [addViolationDerivation]

theorem addViolationDerivation_cons (l : Line) (rest : List Line) :
    addViolationDerivation (l :: rest) =
      if containsSub submitCallMark l then
        l :: (collectTerm rest).1 ++
          (if rest.any (containsSub closeMark) &&
              containsSub obsIdMark (joinL (l :: (collectTerm rest).1)) &&
              !(((collectTerm rest).2.take 4).any (containsSub deriveMark)) then
            [avBlock]
          else []) ++
          addViolationDerivation (collectTerm rest).2
      else l :: addViolationDerivation rest := by
  rw [addViolationDerivation]

/-! ### fix-vehicle-fields.py -/

/-- First pattern of the vehicle map, fix-vehicle-fields.py line 9. -/
def vehicleAbcPat : Line := ("vehicleId: context.vehicleIds.abc123,").data

/-- Replacement for the first pattern, fix-vehicle-fields.py line 9: the
second line carries a fixed eight-space indentation. -/
def vehicleAbcRep : Line :=
  ("licensePlate: \x27ABC123\x27,\n        issuingState: \x27CA\x27,").data

/-- Second pattern of the vehicle map, fix-vehicle-fields.py line 10. -/
def vehicleXyzPat : Line := ("vehicleId: context.vehicleIds.xyz789,").data

/-- Replacement for the second pattern, fix-vehicle-fields.py line 10. -/
def vehicleXyzRep : Line :=
  ("licensePlate: \x27XYZ789\x27,\n        issuingState: \x27WA\x27,").data

/-- Third pattern of the vehicle map, fix-vehicle-fields.py line 11. -/
def vehicleDefPat : Line := ("vehicleId: context.vehicleIds.def456,").data

/-- Replacement for the third pattern, fix-vehicle-fields.py line 11. -/
def vehicleDefRep : Line :=
  ("licensePlate: \x27DEF456\x27,\n        issuingState: \x27OR\x27,").data

/-- The whole-content transformation of fix-vehicle-fields.py lines 21-27:
the three literal substitutions applied in the map's insertion order.  The
regular expressions there are escaped literals, so each re.sub is an
ordinary replace-all. -/
def fixVehicleFields (s : List Char) : List Char :=
  replaceAll vehicleDefPat vehicleDefRep
    (replaceAll vehicleXyzPat vehicleXyzRep
      (replaceAll vehicleAbcPat vehicleAbcRep s))

/-! ### File drivers -/

/-- Per-file step of the fix-vehicle-fields.py driver (lines 18-30): read
the content, transform it, and open the file for writing unconditionally;
the boolean records that a write-back occurs. -/
def fixVehicleFieldsFileStep (content : List Char) : List Char × Bool :=
  (fixVehicleFields content, true)

/-- Per-file step of the add-derivations-v2.py driver (lines 14-59): read
the lines, transform them, and open the file for writing unconditionally;
the boolean records that a write-back occurs. -/
def addDerivationsV2FileStep (lines : List Line) : List Line × Bool :=
  (addDerivationsV2 lines, true)

/-- Index one past the span's end line for the terminator strategy: the
position just after the first line containing the terminator, or the
length of the list when no line contains it. -/
def termEnd : List Line → Nat
  | [] => 0
  | l :: rest => if containsSub closeMark l then 1 else termEnd rest + 1

/-! ### Basic lemmas about the string primitives -/

theorem isPrefixOf_append_self (l t : List Char) : l.isPrefixOf (l ++ t) = true := by
  induction l with
  | nil => simp [List.isPrefixOf]
  | cons a as ih => simp [List.isPrefixOf, ih]

theorem exists_of_isPrefixOf {l s : List Char} (h : l.isPrefixOf s = true) :
    ∃ t, s = l ++ t := by
  induction l generalizing s with
  | nil => exact ⟨s, rfl⟩
  | cons a as ih =>
    match s with
    | [] => simp [List.isPrefixOf] at h
    | b :: bs =>
      simp only [List.isPrefixOf, Bool.and_eq_true, beq_iff_eq] at h
      obtain ⟨rfl, h2⟩ := h
      obtain ⟨t, rfl⟩ := ih h2
      exact ⟨t, rfl⟩

theorem exists_of_containsSub {pat s : List Char} (h : containsSub pat s = true) :
    ∃ u v, s = u ++ pat ++ v := by
  induction s with
  | nil =>
    match pat, h with
    | [], _ => exact ⟨[], [], rfl⟩
  | cons c cs ih =>
    match pat with
    | [] => exact ⟨[], c :: cs, rfl⟩
    | p :: ps =>
      simp only [containsSub, Bool.or_eq_true] at h
      rcases h with h | h
      · obtain ⟨t, ht⟩ := exists_of_isPrefixOf h
        exact ⟨[], t, ht⟩
      · obtain ⟨u, v, huv⟩ := ih h
        exact ⟨c :: u, v, by simp [huv]⟩

theorem mem_of_containsSub {pat s : List Char} {c : Char}
    (h : containsSub pat s = true) (hc : c ∈ pat) : c ∈ s := by
  obtain ⟨u, v, rfl⟩ := exists_of_containsSub h
  simp [hc]

theorem dropWhile_append_allWS {w : List Char} (s : List Char)
    (h : ∀ c ∈ w, isWS c = true) :
    (w ++ s).dropWhile isWS = s.dropWhile isWS := by
  induction w with
  | nil => rfl
  | cons a as ih =>
    have ha : isWS a = true := h a (List.mem_cons_self a as)
    simp only [List.cons_append, List.dropWhile_cons, ha, if_true]
    exact ih (fun c hc => h c (List.mem_cons_of_mem a hc))

theorem dropWhile_cons_neg {a : Char} {s : List Char} (h : isWS a = false) :
    (a :: s).dropWhile isWS = a :: s := by
  simp [List.dropWhile_cons, h]

/-- Any string decomposes as leading whitespace, its strip, and trailing
whitespace. -/
theorem strip_decomp (l : List Char) :
    ∃ w₁ w₂, l = w₁ ++ stripL l ++ w₂ ∧
      (∀ c ∈ w₁, isWS c = true) ∧ (∀ c ∈ w₂, isWS c = true) := by
  refine ⟨l.takeWhile isWS, ((l.dropWhile isWS).reverse.takeWhile isWS).reverse, ?_, ?_, ?_⟩
  · conv_lhs => rw [← List.takeWhile_append_dropWhile (p := isWS) (l := l)]
    have : stripL l ++ ((l.dropWhile isWS).reverse.takeWhile isWS).reverse
        = l.dropWhile isWS := by
      unfold stripL
      rw [← List.reverse_append, List.takeWhile_append_dropWhile, List.reverse_reverse]
    rw [List.append_assoc, this]
  · exact fun c hc => List.mem_takeWhile_imp hc
  · intro c hc
    rw [List.mem_reverse] at hc
    exact List.mem_takeWhile_imp hc

theorem replaceCore_nil (p : Char) (ps rep : List Char) :
    replaceCore p ps rep [] = [] := rfl

theorem replaceCore_cons (p : Char) (ps rep : List Char) (c : Char) (cs : List Char) :
    replaceCore p ps rep (c :: cs) =
      if (p :: ps).isPrefixOf (c :: cs) then
        rep ++ replaceCore p ps rep (cs.drop ps.length)
      else
        c :: replaceCore p ps rep cs := by
  show (if (p :: ps).isPrefixOf (c :: cs) then
      rep ++ replaceCoreGo p ps rep cs.length (cs.drop ps.length)
    else c :: replaceCoreGo p ps rep cs.length cs) = _
  rw [replaceCoreGo_fuel p ps rep cs.length (cs.drop ps.length)
      (by simp only [List.length_drop]; omega),
    replaceCoreGo_fuel p ps rep cs.length cs (le_refl _)]

/-- Stripping a string made of whitespace around a fixed text whose first
and last characters are not whitespace returns exactly that text. -/
theorem stripL_wrap (w₁ w₂ mid : List Char)
    (h1 : ∀ c ∈ w₁, isWS c = true) (h2 : ∀ c ∈ w₂, isWS c = true)
    (hne : mid ≠ [])
    (hh : ∀ c ∈ mid.take 1, isWS c = false)
    (hl : ∀ c ∈ mid.reverse.take 1, isWS c = false) :
    stripL (w₁ ++ mid ++ w₂) = mid := by
  match mid, hne with
  | a :: m, _ =>
    have ha : isWS a = false := hh a (by simp)
    have hrne : (a :: m).reverse ≠ [] := by simp
    match hr : (a :: m).reverse, hrne with
    | z :: k, _ =>
      have hz : isWS z = false := by
        refine hl z ?_
        rw [hr]
        simp
      have hmw : (a :: m) ++ w₂ = a :: (m ++ w₂) := by simp
      unfold stripL
      rw [List.append_assoc, dropWhile_append_allWS ((a :: m) ++ w₂) h1, hmw,
        dropWhile_cons_neg ha, ← hmw]
      rw [List.reverse_append,
        dropWhile_append_allWS (a :: m).reverse (fun c hc => h2 c (List.mem_reverse.mp hc)),
        hr, dropWhile_cons_neg hz, ← hr, List.reverse_reverse]

theorem not_isPrefixOf_of_ws {p : Char} {ps : List Char} {c : Char} {cs : List Char}
    (hc : isWS c = true) (hp : isWS p = false) :
    (p :: ps).isPrefixOf (c :: cs) = false := by
  have hne : (p == c) = false := by
    refine beq_false_of_ne ?_
    intro e
    rw [e, hc] at hp
    exact Bool.noConfusion hp
  simp [List.isPrefixOf, hne]

theorem replaceCore_allWS {p : Char} {ps rep : List Char} {w : List Char}
    (hw : ∀ c ∈ w, isWS c = true) (hp : isWS p = false) :
    replaceCore p ps rep w = w := by
  induction w with
  | nil => exact replaceCore_nil p ps rep
  | cons c cs ih =>
    have hc : isWS c = true := hw c (List.mem_cons_self c cs)
    rw [replaceCore_cons]
    simp only [not_isPrefixOf_of_ws hc hp, Bool.false_eq_true, if_false]
    rw [ih (fun d hd => hw d (List.mem_cons_of_mem c hd))]

/-- Replacing inside whitespace followed by the pattern: the whitespace is
copied, the pattern occurrence is rewritten, and replacement continues in
the remainder. -/
theorem replaceCore_wrap {p : Char} {ps rep : List Char} {w : List Char} (rest : List Char)
    (hw : ∀ c ∈ w, isWS c = true) (hp : isWS p = false) :
    replaceCore p ps rep (w ++ (p :: ps) ++ rest) = w ++ rep ++ replaceCore p ps rep rest := by
  induction w with
  | nil =>
    simp only [List.nil_append, List.cons_append]
    rw [replaceCore_cons]
    have hpre : (p :: ps).isPrefixOf (p :: (ps ++ rest)) = true := by
      have h := isPrefixOf_append_self (p :: ps) rest
      simp only [List.cons_append] at h
      exact h
    simp only [hpre, if_true, List.drop_left]
  | cons c cs ih =>
    have hc : isWS c = true := hw c (List.mem_cons_self c cs)
    have ihs := ih (fun d hd => hw d (List.mem_cons_of_mem c hd))
    simp only [List.cons_append]
    rw [replaceCore_cons]
    simp only [not_isPrefixOf_of_ws hc hp, Bool.false_eq_true, if_false]
    simp only [List.cons_append] at ihs
    rw [ihs]

/-! ### Lemmas about the last-line rewrite of add-submitted-by.py -/

theorem mem_stripL {c : Char} {l : List Char} (hc : isWS c = false) (hm : c ∈ l) :
    c ∈ stripL l := by
  obtain ⟨w₁, w₂, he, h1, h2⟩ := strip_decomp l
  rw [he] at hm
  simp only [List.mem_append] at hm
  rcases hm with (hm | hm) | hm
  · rw [h1 c hm] at hc
    exact Bool.noConfusion hc
  · exact hm
  · rw [h2 c hm] at hc
    exact Bool.noConfusion hc

/-- A line containing the submit-call marker never strips to one of the
two bare closing-bracket lines. -/
theorem stripL_ne_of_contains {l : Line} (h : containsSub submitBraceMark l = true) :
    stripL l ≠ patSemi ∧ stripL l ≠ patComma := by
  have hw : ('w' : Char) ∈ l := mem_of_containsSub h (by decide)
  have hs : ('w' : Char) ∈ stripL l := mem_stripL (by decide) hw
  constructor
  · intro he
    rw [he] at hs
    exact absurd hs (by decide)
  · intro he
    rw [he] at hs
    exact absurd hs (by decide)

/-- On a line whose strip is the bare semicolon closer, the last-line
rewrite splices in the second argument, preserving the surrounding
whitespace. -/
theorem fixLine_semi_shape {l : Line} (h : stripL l = patSemi) :
    ∃ w₁ w₂, (∀ c ∈ w₁, isWS c = true) ∧ (∀ c ∈ w₂, isWS c = true) ∧
      l = w₁ ++ patSemi ++ w₂ ∧ fixLine l = w₁ ++ repSemi ++ w₂ := by
  obtain ⟨w₁, w₂, he, h1, h2⟩ := strip_decomp l
  rw [h] at he
  refine ⟨w₁, w₂, h1, h2, he, ?_⟩
  have hne : stripL l ≠ patComma := by rw [h]; decide
  unfold fixLine
  rw [if_pos h]
  show replaceCore rb (patSemi.tail) repSemi l = w₁ ++ repSemi ++ w₂
  rw [he]
  have hp : isWS rb = false := by decide
  have hps : patSemi = rb :: patSemi.tail := by decide
  calc replaceCore rb patSemi.tail repSemi (w₁ ++ patSemi ++ w₂)
      = replaceCore rb patSemi.tail repSemi (w₁ ++ (rb :: patSemi.tail) ++ w₂) := by
        rw [← hps]
    _ = w₁ ++ repSemi ++ replaceCore rb patSemi.tail repSemi w₂ :=
        replaceCore_wrap w₂ h1 hp
    _ = w₁ ++ repSemi ++ w₂ := by rw [replaceCore_allWS h2 hp]

/-- On a line whose strip is the bare comma closer, the last-line rewrite
splices in the second argument, preserving the surrounding whitespace. -/
theorem fixLine_comma_shape {l : Line} (h : stripL l = patComma) :
    ∃ w₁ w₂, (∀ c ∈ w₁, isWS c = true) ∧ (∀ c ∈ w₂, isWS c = true) ∧
      l = w₁ ++ patComma ++ w₂ ∧ fixLine l = w₁ ++ repComma ++ w₂ := by
  obtain ⟨w₁, w₂, he, h1, h2⟩ := strip_decomp l
  rw [h] at he
  refine ⟨w₁, w₂, h1, h2, he, ?_⟩
  have hne : stripL l ≠ patSemi := by rw [h]; decide
  unfold fixLine
  rw [if_neg hne, if_pos h]
  show replaceCore rb (patComma.tail) repComma l = w₁ ++ repComma ++ w₂
  rw [he]
  have hp : isWS rb = false := by decide
  have hps : patComma = rb :: patComma.tail := by decide
  calc replaceCore rb patComma.tail repComma (w₁ ++ patComma ++ w₂)
      = replaceCore rb patComma.tail repComma (w₁ ++ (rb :: patComma.tail) ++ w₂) := by
        rw [← hps]
    _ = w₁ ++ repComma ++ replaceCore rb patComma.tail repComma w₂ :=
        replaceCore_wrap w₂ h1 hp
    _ = w₁ ++ repComma ++ w₂ := by rw [replaceCore_allWS h2 hp]

theorem fixLine_of_no_match {l : Line} (h1 : stripL l ≠ patSemi)
    (h2 : stripL l ≠ patComma) : fixLine l = l := by
  unfold fixLine
  rw [if_neg h1, if_neg h2]

/-- A line containing the submit-call marker is left unchanged by the
last-line rewrite. -/
theorem fixLine_of_contains {l : Line} (h : containsSub submitBraceMark l = true) :
    fixLine l = l := by
  obtain ⟨h1, h2⟩ := stripL_ne_of_contains h
  exact fixLine_of_no_match h1 h2

theorem stripL_fixLine_semi {l : Line} (h : stripL l = patSemi) :
    stripL (fixLine l) = repSemi := by
  obtain ⟨w₁, w₂, h1, h2, _, hf⟩ := fixLine_semi_shape h
  rw [hf]
  exact stripL_wrap w₁ w₂ repSemi h1 h2 (by decide) (by decide) (by decide)

theorem stripL_fixLine_comma {l : Line} (h : stripL l = patComma) :
    stripL (fixLine l) = repComma := by
  obtain ⟨w₁, w₂, h1, h2, _, hf⟩ := fixLine_comma_shape h
  rw [hf]
  exact stripL_wrap w₁ w₂ repComma h1 h2 (by decide) (by decide) (by decide)

/-- The last-line rewrite is idempotent. -/
theorem fixLine_idem (l : Line) : fixLine (fixLine l) = fixLine l := by
  by_cases hs : stripL l = patSemi
  · have h := stripL_fixLine_semi hs
    refine fixLine_of_no_match ?_ ?_ <;> rw [h] <;> decide
  · by_cases hc : stripL l = patComma
    · have h := stripL_fixLine_comma hc
      refine fixLine_of_no_match ?_ ?_ <;> rw [h] <;> decide
    · rw [fixLine_of_no_match hs hc]
      exact fixLine_of_no_match hs hc

/-- The last-line rewrite preserves the brace balance of the line. -/
theorem braceDelta_fixLine (l : Line) : braceDelta (fixLine l) = braceDelta l := by
  by_cases hs : stripL l = patSemi
  · obtain ⟨w₁, w₂, _, _, he, hf⟩ := fixLine_semi_shape hs
    rw [hf]
    conv_rhs => rw [he]
    unfold braceDelta
    simp only [List.count_append]
    have e1 : patSemi.count lb = repSemi.count lb := by decide
    have e2 : patSemi.count rb = repSemi.count rb := by decide
    rw [e1, e2]
  · by_cases hc : stripL l = patComma
    · obtain ⟨w₁, w₂, _, _, he, hf⟩ := fixLine_comma_shape hc
      rw [hf]
      conv_rhs => rw [he]
      unfold braceDelta
      simp only [List.count_append]
      have e1 : patComma.count lb = repComma.count lb := by decide
      have e2 : patComma.count rb = repComma.count rb := by decide
      rw [e1, e2]
    · rw [fixLine_of_no_match hs hc]

/-- The rewrite changes the line exactly when the stripped line is one of
the two closing-bracket forms. -/
theorem fixLine_ne_iff (l : Line) :
    fixLine l ≠ l ↔ (stripL l = patSemi ∨ stripL l = patComma) := by
  constructor
  · intro hne
    by_cases hs : stripL l = patSemi
    · exact Or.inl hs
    · by_cases hc : stripL l = patComma
      · exact Or.inr hc
      · exact absurd (fixLine_of_no_match hs hc) hne
  · intro h
    rcases h with hs | hc
    · obtain ⟨w₁, w₂, _, _, he, hf⟩ := fixLine_semi_shape hs
      intro heq
      rw [hf, he] at heq
      have := congrArg List.length heq
      simp only [List.length_append] at this
      have l1 : repSemi.length = 16 := by decide
      have l2 : patSemi.length = 3 := by decide
      omega
    · obtain ⟨w₁, w₂, _, _, he, hf⟩ := fixLine_comma_shape hc
      intro heq
      rw [hf, he] at heq
      have := congrArg List.length heq
      simp only [List.length_append] at this
      have l1 : repComma.length = 16 := by decide
      have l2 : patComma.length = 3 := by decide
      omega

/-! ### Lemmas about the two span collectors -/

theorem collectCall_split (bc : Int) (ls : List Line) :
    (collectCall bc ls).1 ++ (collectCall bc ls).2 = ls := by
  induction ls generalizing bc with
  | nil => simp [collectCall]
  | cons l rest ih =>
    simp only [collectCall]
    by_cases h : bc > 0
    · simp only [if_pos h, List.cons_append, List.cons.injEq, true_and]
      exact ih _
    · simp [if_neg h]

theorem fixCallLines_length (ls : List Line) :
    (fixCallLines ls).length = ls.length := by
  induction ls with
  | nil => rfl
  | cons l rest ih =>
    match rest with
    | [] => rfl
    | l₂ :: t =>
      simp only [fixCallLines, List.length_cons]
      simp only [List.length_cons] at ih
      omega

theorem fixCallLines_cons_cons (l m : Line) (ms : List Line) :
    fixCallLines (l :: m :: ms) = l :: fixCallLines (m :: ms) := by
  rfl

theorem fixCallLines_cons_of_fixed {l : Line} (t : List Line) (h : fixLine l = l) :
    fixCallLines (l :: t) = l :: fixCallLines t := by
  match t with
  | [] => simp [fixCallLines, h]
  | l₂ :: t => rfl

theorem map_braceDelta_fixCallLines (ls : List Line) :
    (fixCallLines ls).map braceDelta = ls.map braceDelta := by
  induction ls with
  | nil => rfl
  | cons l rest ih =>
    match rest with
    | [] => simp [fixCallLines, braceDelta_fixLine]
    | l₂ :: t =>
      simp only [fixCallLines, List.map_cons, List.cons.injEq, true_and]
      simpa using ih

theorem fixCallLines_idem (ls : List Line) :
    fixCallLines (fixCallLines ls) = fixCallLines ls := by
  induction ls with
  | nil => rfl
  | cons l rest ih =>
    match rest with
    | [] => simp [fixCallLines, fixLine_idem]
    | l₂ :: t =>
      have hne : fixCallLines (l₂ :: t) ≠ [] := by
        intro he
        have hl := fixCallLines_length (l₂ :: t)
        rw [he] at hl
        simp at hl
      obtain ⟨m, ms, hx⟩ : ∃ m ms, fixCallLines (l₂ :: t) = m :: ms := by
        cases hfc : fixCallLines (l₂ :: t) with
        | nil => exact absurd hfc hne
        | cons a b => exact ⟨a, b, rfl⟩
      rw [fixCallLines_cons_cons l l₂ t, hx, fixCallLines_cons_cons l m ms, ← hx, ih]

/-- Replaying the collector on a consumed span whose per-line brace
balances are unchanged, followed by any continuation, consumes exactly the
span again; the continuation must be empty when the original run consumed
the whole input. -/
theorem collectCall_replay :
    ∀ (ls : List Line) (bc : Int) (cons rem ys X : List Line),
      collectCall bc ls = (cons, rem) →
      ys.map braceDelta = cons.map braceDelta →
      (rem = [] → X = []) →
      collectCall bc (ys ++ X) = (ys, X) := by
  intro ls
  induction ls with
  | nil =>
    intro bc cons rem ys X h hmap hrem
    have h1 : cons = [] := by
      have hf := congrArg Prod.fst h
      simpa [collectCall] using hf.symm
    have h2 : rem = [] := by
      have hs := congrArg Prod.snd h
      simpa [collectCall] using hs.symm
    rw [h1] at hmap
    simp only [List.map_nil] at hmap
    have hys : ys = [] := by
      have hl := congrArg List.length hmap
      simp only [List.length_map, List.length_nil] at hl
      exact List.eq_nil_of_length_eq_zero hl
    rw [hys, hrem h2]
    simp [collectCall]
  | cons x xs ih =>
    intro bc cons rem ys X h hmap hrem
    by_cases hbc : bc > 0
    · have hcc : collectCall bc (x :: xs) =
          (x :: (collectCall (bc + braceDelta x) xs).1,
            (collectCall (bc + braceDelta x) xs).2) := by
        simp [collectCall, if_pos hbc]
      rw [hcc] at h
      have h1 : cons = x :: (collectCall (bc + braceDelta x) xs).1 := by
        have hf := congrArg Prod.fst h
        simpa using hf.symm
      have h2 : rem = (collectCall (bc + braceDelta x) xs).2 := by
        have hs := congrArg Prod.snd h
        simpa using hs.symm
      rw [h1] at hmap
      cases ys with
      | nil => simp at hmap
      | cons y ys₂ =>
        simp only [List.map_cons, List.cons.injEq] at hmap
        obtain ⟨hmy, hmtail⟩ := hmap
        have hrec := ih (bc + braceDelta x) (collectCall (bc + braceDelta x) xs).1
          (collectCall (bc + braceDelta x) xs).2 ys₂ X rfl hmtail
          (fun hr => hrem (by rw [h2, hr]))
        show collectCall bc (y :: (ys₂ ++ X)) = (y :: ys₂, X)
        simp only [collectCall, if_pos hbc]
        rw [hmy, hrec]
    · have h1 : cons = [] := by
        have hf := congrArg Prod.fst h
        simpa [collectCall, if_neg hbc] using hf.symm
      rw [h1] at hmap
      simp only [List.map_nil] at hmap
      have hys : ys = [] := by
        have hl := congrArg List.length hmap
        simp only [List.length_map, List.length_nil] at hl
        exact List.eq_nil_of_length_eq_zero hl
      rw [hys]
      simp only [List.nil_append]
      match X with
      | [] => simp [collectCall]
      | x₂ :: xs₂ => simp [collectCall, if_neg hbc]

/-- Running balance after consuming a prefix of the rest of the file,
seeded from the start line. -/
def prefixBal (bc : Int) (ls : List Line) (k : Nat) : Int :=
  bc + (((ls.take k).map braceDelta).sum)

theorem prefixBal_zero (bc : Int) (ls : List Line) : prefixBal bc ls 0 = bc := by
  simp [prefixBal]

theorem prefixBal_cons (bc : Int) (l : Line) (ls : List Line) (k : Nat) :
    prefixBal bc (l :: ls) (k + 1) = prefixBal (bc + braceDelta l) ls k := by
  simp only [prefixBal, List.take_succ_cons, List.map_cons, List.sum_cons]
  ring

/-- The brace-balance collector stops exactly at the first line at which
the running balance becomes nonpositive. -/
theorem collectCall_first_nonpos (n : Nat) (bc : Int) (ls : List Line)
    (hn : n < ls.length)
    (hpos : ∀ k, k ≤ n → prefixBal bc ls k > 0)
    (hstop : prefixBal bc ls (n + 1) ≤ 0) :
    collectCall bc ls = (ls.take (n + 1), ls.drop (n + 1)) := by
  induction n generalizing bc ls with
  | zero =>
    cases ls with
    | nil => simp at hn
    | cons x xs =>
      have h0 : bc > 0 := by
        have := hpos 0 (le_refl 0)
        rwa [prefixBal_zero] at this
      have h1 : bc + braceDelta x ≤ 0 := by
        have := hstop
        rwa [prefixBal_cons, prefixBal_zero] at this
      simp only [collectCall, if_pos h0]
      match xs with
      | [] => simp [collectCall]
      | y :: ys =>
        have : ¬(bc + braceDelta x > 0) := by omega
        simp [collectCall, if_neg this]
  | succ n ih =>
    cases ls with
    | nil => simp at hn
    | cons x xs =>
      have h0 : bc > 0 := by
        have := hpos 0 (Nat.zero_le _)
        rwa [prefixBal_zero] at this
      have hn2 : n < xs.length := by
        simp only [List.length_cons] at hn
        omega
      have hpos2 : ∀ k, k ≤ n → prefixBal (bc + braceDelta x) xs k > 0 := by
        intro k hk
        have := hpos (k + 1) (by omega)
        rwa [prefixBal_cons] at this
      have hstop2 : prefixBal (bc + braceDelta x) xs (n + 1) ≤ 0 := by
        have := hstop
        rwa [prefixBal_cons] at this
      simp only [collectCall, if_pos h0]
      rw [ih (bc + braceDelta x) xs hn2 hpos2 hstop2]
      simp

/-- When the running balance stays positive at every line, the
brace-balance collector consumes the whole input. -/
theorem collectCall_all (bc : Int) (ls : List Line)
    (hpos : ∀ k, k < ls.length → prefixBal bc ls k > 0) :
    collectCall bc ls = (ls, []) := by
  induction ls generalizing bc with
  | nil => simp [collectCall]
  | cons x xs ih =>
    have h0 : bc > 0 := by
      have := hpos 0 (by simp)
      rwa [prefixBal_zero] at this
    have h2 : ∀ k, k < xs.length → prefixBal (bc + braceDelta x) xs k > 0 := by
      intro k hk
      have := hpos (k + 1) (by simp only [List.length_cons]; omega)
      rwa [prefixBal_cons] at this
    simp only [collectCall, if_pos h0]
    rw [ih _ h2]

/-- When no line contains the terminator, the terminator collector
consumes the whole input. -/
theorem collectTerm_all (ls : List Line)
    (h : ∀ l ∈ ls, containsSub closeMark l = false) :
    collectTerm ls = (ls, []) := by
  induction ls with
  | nil => rfl
  | cons l rest ih =>
    have hl := h l (List.mem_cons_self l rest)
    simp only [collectTerm, hl, Bool.false_eq_true, if_false]
    rw [ih (fun x hx => h x (List.mem_cons_of_mem l hx))]

/-- The terminator collector computes the take/drop decomposition at the
first terminator line. -/
theorem collectTerm_take_drop (ls : List Line) :
    collectTerm ls = (ls.take (termEnd ls), ls.drop (termEnd ls)) := by
  induction ls with
  | nil => rfl
  | cons l rest ih =>
    by_cases h : containsSub closeMark l
    · simp [collectTerm, termEnd, h]
    · simp only [collectTerm, termEnd, h, Bool.false_eq_true, if_false]
      rw [ih]
      simp

/-! ### Idempotence of add-submitted-by.py -/

theorem addSubmittedBy_idem_aux :
    ∀ (n : Nat) (ls : List Line), ls.length ≤ n →
      addSubmittedBy (addSubmittedBy ls) = addSubmittedBy ls := by
  intro n
  induction n with
  | zero =>
    intro ls h
    have hls : ls = [] := by
      cases ls with
      | nil => rfl
      | cons a b => simp at h
    rw [hls, addSubmittedBy_nil, addSubmittedBy_nil]
  | succ n ih =>
    intro ls h
    cases ls with
    | nil => rw [addSubmittedBy_nil, addSubmittedBy_nil]
    | cons l rest =>
      have hrest : rest.length ≤ n := by
        simp only [List.length_cons] at h
        omega
      by_cases hm : containsSub submitBraceMark l
      · obtain ⟨cons, rem, hp⟩ : ∃ a b, collectCall (braceDelta l) rest = (a, b) :=
          ⟨_, _, rfl⟩
      -- first application
        have hfix : fixLine l = l := fixLine_of_contains hm
        have e1 : addSubmittedBy (l :: rest) =
            (l :: fixCallLines cons) ++ addSubmittedBy rem := by
          rw [addSubmittedBy_cons, if_pos hm, hp]
          rw [fixCallLines_cons_of_fixed cons hfix]
        have hrem : rem.length ≤ rest.length := by
          have hs := collectCall_snd_length (braceDelta l) rest
          rw [hp] at hs
          exact hs
        have hreplay : collectCall (braceDelta l)
            (fixCallLines cons ++ addSubmittedBy rem) = (fixCallLines cons, addSubmittedBy rem) :=
          collectCall_replay rest (braceDelta l) cons rem (fixCallLines cons)
            (addSubmittedBy rem) hp (map_braceDelta_fixCallLines cons)
            (fun hr => by rw [hr, addSubmittedBy_nil])
        rw [e1]
        show addSubmittedBy (l :: (fixCallLines cons ++ addSubmittedBy rem)) = _
        rw [addSubmittedBy_cons, if_pos hm, hreplay]
        rw [fixCallLines_cons_of_fixed (fixCallLines cons) hfix, fixCallLines_idem,
          ih rem (le_trans hrem hrest)]
      · rw [addSubmittedBy_cons, if_neg hm]
        show addSubmittedBy (l :: addSubmittedBy rest) = _
        rw [addSubmittedBy_cons, if_neg hm, ih rest hrest]

/-- C1 (amended theorem): the line-scanner transformation of
add-submitted-by.py is idempotent on every input line sequence; in
particular a second run never appends a second test-user argument. -/
theorem addSubmittedBy_idempotent (ls : List Line) :
    addSubmittedBy (addSubmittedBy ls) = addSubmittedBy ls :=
  addSubmittedBy_idem_aux ls.length ls (le_refl _)

/-- C1 (counterexample): the whole-file regex substitution of fix-tests.py
is not idempotent: on a file consisting of one already-closed submit call,
the second application rewrites the output of the first again and inserts
a second test-user argument. -/
theorem fixTests_not_idempotent :
    fixTests (fixTests (("await observationService.submit(\x7ba\x7d);").data)) ≠
      fixTests (("await observationService.submit(\x7ba\x7d);").data) := by
  decide

/-! ### Claims about the span collectors -/

/-- A start line on which the add-submitted-by.py pattern fires with
seeded balance one. -/
def exStart : Line := ("      await observationService.submit(\x7b").data

/-- Rest of a file on which the balance jumps below zero and only later
returns to zero. -/
def exNegRest : List Line := [("\x7d\x7d").data, ("\x7b").data]

/-- C2 (counterexample): on a file where the seeded balance jumps to a
negative value on the first later line and first returns to zero on the
second, the collector stops at the first line, not at the first
zero-balance line: its consumed span is not the two-line prefix. -/
theorem collectCall_not_first_zero :
    containsSub submitBraceMark exStart = true ∧
    braceDelta exStart = 1 ∧
    prefixBal (braceDelta exStart) exNegRest 1 ≠ 0 ∧
    prefixBal (braceDelta exStart) exNegRest 2 = 0 ∧
    (collectCall (braceDelta exStart) exNegRest).1 ≠ exNegRest.take 2 := by
  decide

/-- C2 (amended theorem): when the seeded balance stays strictly positive
up to line n of the rest of the file and becomes zero at line n (so the
first nonpositive value is the first return to zero), the brace-balance
collector consumes exactly the lines up to and including line n; in
general it stops at the first nonpositive balance, which need not be a
return to exactly zero. -/
theorem collectCall_span_end (n : Nat) (bc : Int) (ls : List Line)
    (hn : n < ls.length)
    (hpos : ∀ k, k ≤ n → prefixBal bc ls k > 0)
    (hstop : prefixBal bc ls (n + 1) = 0) :
    (collectCall bc ls).1 = ls.take (n + 1) ∧
      (collectCall bc ls).2 = ls.drop (n + 1) := by
  have h := collectCall_first_nonpos n bc ls hn hpos (le_of_eq hstop)
  rw [h]
  exact ⟨rfl, rfl⟩

/-- C2 (witness): the amended theorem applied to a concrete two-line call
body whose balance first returns to zero on its second line. -/
theorem collectCall_span_end_witness :
    (collectCall 1 [("  a: 1,").data, ("\x7d);").data]).1 =
        [("  a: 1,").data, ("\x7d);").data].take 2 ∧
      (collectCall 1 [("  a: 1,").data, ("\x7d);").data]).2 =
        [("  a: 1,").data, ("\x7d);").data].drop 2 :=
  collectCall_span_end 1 1 [("  a: 1,").data, ("\x7d);").data]
    (by decide) (by decide) (by decide)

/-- Two lines with no terminator token whose balance never returns to
zero: it jumps from one to minus one. -/
def exNoTermRest : List Line := [("\x7d\x7d").data, ("x").data]

/-- C6 (counterexample): with no terminator and a balance that never
returns to zero but crosses below it, the brace-balance collector stops
before the last line, so the span does not extend to end-of-file. -/
theorem collectCall_stops_before_eof :
    (∀ l ∈ exNoTermRest, containsSub closeMark l = false) ∧
    prefixBal 1 exNoTermRest 1 ≠ 0 ∧
    prefixBal 1 exNoTermRest 2 ≠ 0 ∧
    (collectCall 1 exNoTermRest).2 ≠ [] := by
  decide

/-- C6 (amended theorem): both collectors terminate by construction, and
the span extends to end-of-file in the no-stop cases: the terminator
collector consumes the whole input when no line contains the terminator,
and the brace-balance collector consumes the whole input when the running
balance stays strictly positive at every line (rather than merely never
returning to zero). -/
theorem collectors_extend_to_eof (ls : List Line) (bc : Int)
    (h1 : ∀ l ∈ ls, containsSub closeMark l = false)
    (h2 : ∀ k, k < ls.length → prefixBal bc ls k > 0) :
    collectTerm ls = (ls, []) ∧ collectCall bc ls = (ls, []) :=
  ⟨collectTerm_all ls h1, collectCall_all bc ls h2⟩

/-- C6 (witness): the amended theorem applied to a concrete unterminated
call body with strictly positive balances. -/
theorem collectors_extend_to_eof_witness :
    collectTerm [("  a: \x7b").data, ("  b: 1,").data] =
        ([("  a: \x7b").data, ("  b: 1,").data], []) ∧
      collectCall 1 [("  a: \x7b").data, ("  b: 1,").data] =
        ([("  a: \x7b").data, ("  b: 1,").data], []) :=
  collectors_extend_to_eof [("  a: \x7b").data, ("  b: 1,").data] 1
    (by decide) (by decide)

/-! ### Claims about insertion placement and the guard windows -/

/-- Number of lines of the rest of the file belonging to the span opened
by a matched start line in add-derivations-v2.py: zero when the start line
itself contains the terminator, otherwise through the first terminator
line. -/
def spanEndV2 (l : Line) (rest : List Line) : Nat :=
  if containsSub closeMark l then 0 else termEnd rest

theorem addDerivationsV2_match_shape (l : Line) (rest : List Line)
    (h1 : matchesV2 l = true) :
    addDerivationsV2 (l :: rest) =
      (l :: rest.take (spanEndV2 l rest)) ++
        (if ((rest.drop (spanEndV2 l rest)).take 10).any (containsSub deriveMark) then []
         else blockV2 (varNameOf l)) ++
        addDerivationsV2 (rest.drop (spanEndV2 l rest)) := by
  rw [addDerivationsV2_cons, if_pos h1]
  by_cases hcl : containsSub closeMark l
  · have he : spanEndV2 l rest = 0 := by simp [spanEndV2, hcl]
    rw [he]
    simp only [if_pos hcl, List.take_zero, List.drop_zero, List.cons_append,
      List.nil_append, List.append_assoc]
  · have he : spanEndV2 l rest = termEnd rest := by simp [spanEndV2, hcl]
    rw [he]
    simp only [if_neg hcl, collectTerm_take_drop, List.cons_append, List.append_assoc]

theorem addViolationDerivation_match_shape (l : Line) (rest : List Line)
    (h : containsSub submitCallMark l = true) :
    addViolationDerivation (l :: rest) =
      (l :: rest.take (termEnd rest)) ++
        (if rest.any (containsSub closeMark) &&
            containsSub obsIdMark (joinL (l :: rest.take (termEnd rest))) &&
            !(((rest.drop (termEnd rest)).take 4).any (containsSub deriveMark)) then
          [avBlock]
        else []) ++
        addViolationDerivation (rest.drop (termEnd rest)) := by
  rw [addViolationDerivation_cons, if_pos h]
  simp only [collectTerm_take_drop, List.cons_append, List.append_assoc]

/-- C3 (theorem): for a matched span, the generated block is inserted
immediately after the line at the span's end index: the output is the
input up to the end line, then the block, then the processed rest.  Stated
for the derivation block of add-derivations-v2.py (when the ten-line
guard window is clear) and for the derivation block of
add-violation-derivation.py (when a terminator exists, the span mentions
the observation variable and the four-line guard window is clear). -/
theorem insertion_after_span (l : Line) (rest : List Line) (l₂ : Line) (rest₂ : List Line)
    (h1 : matchesV2 l = true)
    (hg1 : ((rest.drop (spanEndV2 l rest)).take 10).any (containsSub deriveMark) = false)
    (h2 : containsSub submitCallMark l₂ = true)
    (hf2 : rest₂.any (containsSub closeMark) = true)
    (ho2 : containsSub obsIdMark (joinL (l₂ :: rest₂.take (termEnd rest₂))) = true)
    (hg2 : ((rest₂.drop (termEnd rest₂)).take 4).any (containsSub deriveMark) = false) :
    addDerivationsV2 (l :: rest) =
      (l :: rest.take (spanEndV2 l rest)) ++ blockV2 (varNameOf l) ++
        addDerivationsV2 (rest.drop (spanEndV2 l rest)) ∧
    addViolationDerivation (l₂ :: rest₂) =
      (l₂ :: rest₂.take (termEnd rest₂)) ++ [avBlock] ++
        addViolationDerivation (rest₂.drop (termEnd rest₂)) := by
  constructor
  · rw [addDerivationsV2_match_shape l rest h1, hg1]
    simp
  · rw [addViolationDerivation_match_shape l₂ rest₂ h2, hf2, ho2, hg2]
    simp

/-- C3 (witness): the placement theorem applied to two concrete matched
spans, each closed on the line after the start line. -/
theorem insertion_after_span_witness :
    addDerivationsV2
        [("      const observationId = await observationService.submit(\x7b").data,
          ("      \x7d);").data, ("      next();").data] =
      (("      const observationId = await observationService.submit(\x7b").data ::
          [("      \x7d);").data, ("      next();").data].take 1) ++
        blockV2 (varNameOf ("      const observationId = await observationService.submit(\x7b").data) ++
        addDerivationsV2 ([("      \x7d);").data, ("      next();").data].drop 1) ∧
    addViolationDerivation
        [("      const observationId = await observationService.submit(\x7b").data,
          ("      \x7d);").data] =
      (("      const observationId = await observationService.submit(\x7b").data ::
          [("      \x7d);").data].take 1) ++ [avBlock] ++
        addViolationDerivation ([("      \x7d);").data].drop 1) := by
  have h := insertion_after_span
    (("      const observationId = await observationService.submit(\x7b").data)
    [("      \x7d);").data, ("      next();").data]
    (("      const observationId = await observationService.submit(\x7b").data)
    [("      \x7d);").data]
    (by decide) (by decide) (by decide) (by decide) (by decide) (by decide)
  exact h

/-- Start line of the guard-window counterexample. -/
def c4Start : Line :=
  ("      const observationId = await observationService.submit(\x7b").data

/-- Close line of the guard-window counterexample span. -/
def c4Close : Line := ("      \x7d);").data

/-- A line carrying the guard marker of the generated block. -/
def c4Marker : Line :=
  ("      await violationService.deriveFromObservation(obs, position, \x27test-user\x27);").data

/-- Rest of the guard-window counterexample file: the close line, four
plain lines, then a line carrying the marker as the fifth line after the
span's end. -/
def c4Rest : List Line :=
  [c4Close, ("a").data, ("b").data, ("c").data, ("d").data, c4Marker]

/-- C4 (counterexample): in add-violation-derivation.py the lookahead
window is four lines, not five to ten: with the marker on the fifth line
after the span's end — inside every window of five or more lines — the
insertion is not skipped, and the derivation block is emitted anyway. -/
theorem violation_guard_window_misses :
    (((collectTerm c4Rest).2.take 5).any (containsSub deriveMark) = true) ∧
    addViolationDerivation (c4Start :: c4Rest) =
      c4Start :: c4Close :: avBlock :: ("a").data :: ("b").data :: ("c").data ::
        ("d").data :: c4Marker :: [] := by
  constructor
  · decide
  · have hct : collectTerm c4Rest =
        ([c4Close], [("a").data, ("b").data, ("c").data, ("d").data, c4Marker]) := by
      decide
    rw [addViolationDerivation_cons, if_pos (by decide), hct]
    rw [if_pos (by decide)]
    rw [addViolationDerivation_cons, if_neg (by decide)]
    rw [addViolationDerivation_cons, if_neg (by decide)]
    rw [addViolationDerivation_cons, if_neg (by decide)]
    rw [addViolationDerivation_cons, if_neg (by decide)]
    rw [addViolationDerivation_cons, if_neg (by decide)]
    rw [addViolationDerivation_nil]
    simp

/-- C4 (amended theorem): the idempotency-guard windows are ten lines in
add-derivations-v2.py and four lines in add-violation-derivation.py, in
both cases starting at the first line after the span's end; whenever the
marker occurs inside the respective window, the insertion is skipped and
the span is passed through unchanged. -/
theorem guard_window_skips (l : Line) (rest : List Line) (l₂ : Line) (rest₂ : List Line)
    (h1 : matchesV2 l = true)
    (hg1 : ((rest.drop (spanEndV2 l rest)).take 10).any (containsSub deriveMark) = true)
    (h2 : containsSub submitCallMark l₂ = true)
    (hg2 : ((rest₂.drop (termEnd rest₂)).take 4).any (containsSub deriveMark) = true) :
    addDerivationsV2 (l :: rest) =
      (l :: rest.take (spanEndV2 l rest)) ++
        addDerivationsV2 (rest.drop (spanEndV2 l rest)) ∧
    addViolationDerivation (l₂ :: rest₂) =
      (l₂ :: rest₂.take (termEnd rest₂)) ++
        addViolationDerivation (rest₂.drop (termEnd rest₂)) := by
  constructor
  · rw [addDerivationsV2_match_shape l rest h1, hg1]
    simp
  · rw [addViolationDerivation_match_shape l₂ rest₂ h2, hg2]
    simp

/-- C4 (witness): the guard theorem applied to concrete spans already
followed by the marker inside the respective window. -/
theorem guard_window_skips_witness :
    addDerivationsV2 [c4Start, c4Close, c4Marker] =
      (c4Start :: [c4Close, c4Marker].take 1) ++
        addDerivationsV2 ([c4Close, c4Marker].drop 1) ∧
    addViolationDerivation [c4Start, c4Close, c4Marker] =
      (c4Start :: [c4Close, c4Marker].take 1) ++
        addViolationDerivation ([c4Close, c4Marker].drop 1) := by
  have h := guard_window_skips c4Start [c4Close, c4Marker] c4Start [c4Close, c4Marker]
    (by decide) (by decide) (by decide) (by decide)
  exact h

/-! ### Passthrough and order preservation -/

theorem addDerivationsV2_sublist_aux :
    ∀ (n : Nat) (ls : List Line), ls.length ≤ n →
      List.Sublist ls (addDerivationsV2 ls) := by
  intro n
  induction n with
  | zero =>
    intro ls h
    have hls : ls = [] := by
      cases ls with
      | nil => rfl
      | cons a b => simp at h
    rw [hls, addDerivationsV2_nil]
  | succ n ih =>
    intro ls h
    cases ls with
    | nil => rw [addDerivationsV2_nil]
    | cons l rest =>
      have hrest : rest.length ≤ n := by
        simp only [List.length_cons] at h
        omega
      by_cases hm : matchesV2 l
      · rw [addDerivationsV2_match_shape l rest hm]
        have hsplit : rest = rest.take (spanEndV2 l rest) ++ rest.drop (spanEndV2 l rest) :=
          (List.take_append_drop _ rest).symm
        have hdrop : (rest.drop (spanEndV2 l rest)).length ≤ n := by
          have := List.length_drop (spanEndV2 l rest) rest
          omega
        conv_lhs => rw [hsplit]
        simp only [List.cons_append, List.append_assoc]
        refine List.Sublist.cons₂ l ?_
        refine List.Sublist.append (List.Sublist.refl _) ?_
        have htail := ih _ hdrop
        have hstep := List.Sublist.append
          (List.nil_sublist
            (if ((rest.drop (spanEndV2 l rest)).take 10).any (containsSub deriveMark)
              then ([] : List Line) else blockV2 (varNameOf l)))
          htail
        simpa using hstep
      · rw [addDerivationsV2_cons, if_neg hm]
        exact List.Sublist.cons₂ l (ih rest hrest)

theorem addSubmittedBy_no_match (ls : List Line)
    (h : ∀ l ∈ ls, containsSub submitBraceMark l = false) :
    addSubmittedBy ls = ls := by
  induction ls with
  | nil => exact addSubmittedBy_nil
  | cons l rest ih =>
    have hl := h l (List.mem_cons_self l rest)
    rw [addSubmittedBy_cons]
    simp only [hl, Bool.false_eq_true, if_false]
    rw [ih (fun x hx => h x (List.mem_cons_of_mem l hx))]

/-- C5 (theorem): every input line of add-derivations-v2.py appears in the
output byte-for-byte, in its input order — the input is a sublist of the
output, which contains only inserted blocks besides it — and an input of
add-submitted-by.py none of whose lines matches the start pattern is
passed through entirely unchanged. -/
theorem untouched_lines_passthrough (ls : List Line) :
    List.Sublist ls (addDerivationsV2 ls) ∧
    ((∀ l ∈ ls, containsSub submitBraceMark l = false) → addSubmittedBy ls = ls) :=
  ⟨addDerivationsV2_sublist_aux ls.length ls (le_refl _),
    fun h => addSubmittedBy_no_match ls h⟩

/-- C5 (witness): the passthrough theorem applied to a concrete two-line
input with no matching line. -/
theorem untouched_lines_passthrough_witness :
    List.Sublist [("const a = 1;").data, ("use(a);").data]
        (addDerivationsV2 [("const a = 1;").data, ("use(a);").data]) ∧
      addSubmittedBy [("const a = 1;").data, ("use(a);").data] =
        [("const a = 1;").data, ("use(a);").data] := by
  have h := untouched_lines_passthrough [("const a = 1;").data, ("use(a);").data]
  exact ⟨h.1, h.2 (by decide)⟩

/-! ### Claims about fix-vehicle-fields.py and the file drivers -/

theorem replaceCore_head_not_mem (p : Char) (ps rep : List Char) :
    ∀ (s : List Char), p ∉ s → replaceCore p ps rep s = s := by
  intro s
  induction s with
  | nil => intro _; exact replaceCore_nil p ps rep
  | cons c cs ih =>
    intro h
    have hne : (p == c) = false := by
      refine beq_false_of_ne ?_
      intro e
      exact h (e ▸ List.mem_cons_self c cs)
    have hpre : (p :: ps).isPrefixOf (c :: cs) = false := by
      simp [List.isPrefixOf, hne]
    rw [replaceCore_cons]
    simp only [hpre, Bool.false_eq_true, if_false]
    rw [ih (fun hm => h (List.mem_cons_of_mem c hm))]

theorem replaceAll_wrap (pat rep : List Char) (p : Char) (ps : List Char)
    (w rest : List Char) (hp : pat = p :: ps) (hws : isWS p = false)
    (hw : ∀ c ∈ w, isWS c = true) :
    replaceAll pat rep (w ++ pat ++ rest) = w ++ rep ++ replaceAll pat rep rest := by
  subst hp
  exact replaceCore_wrap rest hw hws

theorem replaceAll_not_mem (pat rep : List Char) (p : Char) (ps : List Char)
    (s : List Char) (hp : pat = p :: ps) (h : p ∉ s) :
    replaceAll pat rep s = s := by
  subst hp
  exact replaceCore_head_not_mem p ps rep s h

/-- C7 (counterexample): on a line indented by four spaces, the output of
fix-vehicle-fields.py carries the original indentation only on its first
line; the second line gets a fixed eight-space indentation, so the output
differs from the claimed form in which both lines keep the original
four-space indentation. -/
theorem vehicle_indent_counterexample :
    fixVehicleFields (("    vehicleId: context.vehicleIds.abc123,").data) =
        ("    licensePlate: \x27ABC123\x27,\n        issuingState: \x27CA\x27,").data ∧
      fixVehicleFields (("    vehicleId: context.vehicleIds.abc123,").data) ≠
        ("    licensePlate: \x27ABC123\x27,\n    issuingState: \x27CA\x27,").data := by
  decide

/-- C7 (amended theorem): a matched vehicle line surrounded by whitespace
is rewritten in place: the prefix whitespace (the original indentation) is
kept before the first generated line, while the second generated line
carries the fixed eight-space indentation hard-coded in the replacement
text, regardless of the original indentation. -/
theorem vehicle_replacement_shape (w₁ w₂ : List Char)
    (h1 : ∀ c ∈ w₁, isWS c = true) (h2 : ∀ c ∈ w₂, isWS c = true) :
    fixVehicleFields (w₁ ++ vehicleAbcPat ++ w₂) = w₁ ++ vehicleAbcRep ++ w₂ := by
  have hv : isWS 'v' = false := by decide
  have hnv₁ : ('v' : Char) ∉ w₁ := by
    intro hm
    have := h1 'v' hm
    rw [this] at hv
    exact Bool.noConfusion hv
  have hnv₂ : ('v' : Char) ∉ w₂ := by
    intro hm
    have := h2 'v' hm
    rw [this] at hv
    exact Bool.noConfusion hv
  have step1 : replaceAll vehicleAbcPat vehicleAbcRep (w₁ ++ vehicleAbcPat ++ w₂) =
      w₁ ++ vehicleAbcRep ++ w₂ := by
    rw [replaceAll_wrap vehicleAbcPat vehicleAbcRep 'v' vehicleAbcPat.tail w₁ w₂
      (by decide) hv h1]
    rw [replaceAll_not_mem vehicleAbcPat vehicleAbcRep 'v' vehicleAbcPat.tail w₂
      (by decide) hnv₂]
  have hmem : ('v' : Char) ∉ w₁ ++ vehicleAbcRep ++ w₂ := by
    intro hm
    simp only [List.mem_append] at hm
    rcases hm with (hm | hm) | hm
    · exact hnv₁ hm
    · exact absurd hm (by decide)
    · exact hnv₂ hm
  unfold fixVehicleFields
  rw [step1]
  rw [replaceAll_not_mem vehicleXyzPat vehicleXyzRep 'v' vehicleXyzPat.tail _
    (by decide) hmem]
  rw [replaceAll_not_mem vehicleDefPat vehicleDefRep 'v' vehicleDefPat.tail _
    (by decide) hmem]

/-- C7 (witness): the replacement-shape theorem applied to the pattern
line indented by four spaces with empty trailing text. -/
theorem vehicle_replacement_witness :
    fixVehicleFields (("    ").data ++ vehicleAbcPat ++ []) =
      ("    ").data ++ vehicleAbcRep ++ [] :=
  vehicle_replacement_shape (("    ").data) [] (by decide) (by decide)

/-- C8 (counterexample): a file whose content the pipeline leaves
unchanged is still opened for writing and written back: the driver step on
a one-character content returns the same content with the write flag set. -/
theorem file_written_when_unchanged :
    (fixVehicleFieldsFileStep (("x").data)).1 = ("x").data ∧
      (fixVehicleFieldsFileStep (("x").data)).2 = true := by
  decide

/-- C8 (amended theorem): the file drivers write back unconditionally: the
write flag is true for every content, including contents the pipeline
leaves unchanged, such as any fix-vehicle-fields.py input with no letter v
and hence no occurrence of any vehicle pattern. -/
theorem writeback_unconditional (c : List Char) (ls : List Line)
    (h : ('v' : Char) ∉ c) :
    (fixVehicleFieldsFileStep c).1 = c ∧
      (fixVehicleFieldsFileStep c).2 = true ∧
      (addDerivationsV2FileStep ls).2 = true := by
  refine ⟨?_, rfl, rfl⟩
  show fixVehicleFields c = c
  unfold fixVehicleFields
  rw [replaceAll_not_mem vehicleAbcPat vehicleAbcRep 'v' vehicleAbcPat.tail c
    (by decide) h]
  rw [replaceAll_not_mem vehicleXyzPat vehicleXyzRep 'v' vehicleXyzPat.tail c
    (by decide) h]
  rw [replaceAll_not_mem vehicleDefPat vehicleDefRep 'v' vehicleDefPat.tail c
    (by decide) h]

/-- C8 (witness): the unconditional write-back theorem applied to a
concrete unchanged content and an empty line list. -/
theorem writeback_unconditional_witness :
    (fixVehicleFieldsFileStep (("abc").data)).1 = ("abc").data ∧
      (fixVehicleFieldsFileStep (("abc").data)).2 = true ∧
      (addDerivationsV2FileStep []).2 = true :=
  writeback_unconditional (("abc").data) [] (by decide)

/-! ### The test-user condition and the observationId condition -/

/-- C9 (theorem): in add-submitted-by.py the collected call is modified,
by splicing in the test-user argument, exactly when its last line strips
to the bare closing text of one of the two recognized forms; and a
matched call whose braces balance on the start line itself collects a
one-line span and is passed through unchanged. -/
theorem testUser_iff_last_line (x l : Line) (rest : List Line)
    (hl : containsSub submitBraceMark l = true) (hbal : braceDelta l ≤ 0) :
    (fixLine x ≠ x ↔ (stripL x = patSemi ∨ stripL x = patComma)) ∧
      addSubmittedBy (l :: rest) = l :: addSubmittedBy rest := by
  refine ⟨fixLine_ne_iff x, ?_⟩
  rw [addSubmittedBy_cons, if_pos hl]
  have hcc : collectCall (braceDelta l) rest = ([], rest) := by
    cases rest with
    | nil => simp [collectCall]
    | cons r rs =>
      have hng : ¬(braceDelta l > 0) := by omega
      simp [collectCall, hng]
  rw [hcc]
  show fixCallLines [l] ++ addSubmittedBy rest = l :: addSubmittedBy rest
  simp [fixCallLines, fixLine_of_contains hl]

/-- C9 (witness): the condition theorem applied to a concrete closing line
and a concrete one-line balanced submit call. -/
theorem testUser_iff_witness :
    (fixLine (("      \x7d);").data) ≠ ("      \x7d);").data ↔
        (stripL (("      \x7d);").data) = patSemi ∨
          stripL (("      \x7d);").data) = patComma)) ∧
      addSubmittedBy [("await observationService.submit(\x7b a: 1 \x7d);").data] =
        ("await observationService.submit(\x7b a: 1 \x7d);").data ::
          addSubmittedBy [] :=
  testUser_iff_last_line (("      \x7d);").data)
    (("await observationService.submit(\x7b a: 1 \x7d);").data) []
    (by decide) (by decide)

/-- C10 (theorem): in add-violation-derivation.py, when the joined text of
the collected span does not contain the observation-variable marker, the
span is passed through with no derivation block inserted; hence insertion
happens only when the span text contains the marker. -/
theorem derivation_requires_observationId (l : Line) (rest : List Line)
    (hm : containsSub submitCallMark l = true)
    (hobs : containsSub obsIdMark (joinL (l :: rest.take (termEnd rest))) = false) :
    addViolationDerivation (l :: rest) =
      (l :: rest.take (termEnd rest)) ++
        addViolationDerivation (rest.drop (termEnd rest)) := by
  rw [addViolationDerivation_match_shape l rest hm, hobs]
  simp

/-- C10 (witness): the condition theorem applied to a concrete submit call
assigned to a variable that does not mention the observation marker. -/
theorem derivation_requires_witness :
    addViolationDerivation
        [("      const fooId = await observationService.submit(\x7b").data,
          ("      \x7d);").data] =
      (("      const fooId = await observationService.submit(\x7b").data ::
          [("      \x7d);").data].take (termEnd [("      \x7d);").data])) ++
        addViolationDerivation
          ([("      \x7d);").data].drop (termEnd [("      \x7d);").data])) :=
  derivation_requires_observationId
    (("      const fooId = await observationService.submit(\x7b").data)
    [("      \x7d);").data] (by decide) (by decide)

end CedarTerrace
